import Mathlib

/-!
Verification of the go-netty support layer: the size-classed buffer pool
and the zero-copy byte extractor (`utils/reader.go`).

Go byte slices are modelled as `List Nat` (byte values never overflow in
the modelled operations), Go `int64` as `Int`, Go errors as
`Option String` / `Except String`.
-/

namespace GoNetty

/-- Go `[]byte` modelled as a list of byte values. -/
abbrev Bytes := List Nat

/-! ### Size-classed pool

Modelled from the spec: the `pool` package's `New`/`Get` implementation is
not under `src/` (only its test `TestGenericPoolGet` is).  Per the spec:
size classes are powers of two; `New(max)` makes the largest class the
greatest power of two ≤ `max`; `Get(requestedSize)` grants the smallest
size class ≥ `requestedSize`, and requests above the ceiling are satisfied
by the ceiling-sized class. -/

/-- Fuel-driven doubling: smallest value of the form `c * 2 ^ k` (k ≤ fuel)
that is ≥ `s`, starting from class `c`. -/
def nextClassGo (fuel : Nat) (c : Nat) (s : Nat) : Nat :=
  match fuel with
  | 0 => c
  | fuel + 1 => if s ≤ c then c else nextClassGo fuel (c * 2) s

/-- Modelled from the spec: the smallest power-of-two size class that is
≥ the requested size (`1` for requests ≤ 1). -/
def nextPow2 (s : Nat) : Nat := nextClassGo s 1 s

/-- Fuel-driven doubling from class `c`: keeps doubling while the doubled
class still fits under `max`. -/
def ceilClassGo (fuel : Nat) (c : Nat) (max : Nat) : Nat :=
  match fuel with
  | 0 => c
  | fuel + 1 => if max < c * 2 then c else ceilClassGo fuel (c * 2) max

/-- Modelled from the spec: the pool's ceiling class for ceiling `max` —
the greatest power of two ≤ `max` (meaningful for `0 < max`). -/
def ceilingClass (max : Nat) : Nat := ceilClassGo max 1 max

/-- A number is a pool size class shape (a power of two) iff rounding it up
to the next class leaves it unchanged. -/
def isPow2 (n : Nat) : Bool := nextPow2 n == n

/-- Modelled from the spec: `Get(requestedSize)` on a pool with ceiling
`max` returns the actual capacity granted — the smallest size class
≥ `requestedSize`, clamped to the ceiling-sized class when that class
would exceed the ceiling. -/
def poolGet (max : Nat) (s : Nat) : Nat :=
  min (nextPow2 s) (ceilingClass max)

/-! ### Basic facts about the class helpers -/

theorem nextClassGo_pow2 (fuel : Nat) :
    ∀ c s k, c = 2 ^ k → ∃ j, nextClassGo fuel c s = 2 ^ j := by
  induction fuel with
  | zero => intro c s k hc; exact ⟨k, hc⟩
  | succ fuel ih =>
    intro c s k hc
    unfold nextClassGo
    by_cases h : s ≤ c
    · simp [h]; exact ⟨k, hc⟩
    · simp [h]
      exact ih (c * 2) s (k + 1) (by rw [hc, pow_succ])

theorem nextClassGo_ge (fuel : Nat) :
    ∀ c s, 0 < c → s ≤ c * 2 ^ fuel → s ≤ nextClassGo fuel c s := by
  induction fuel with
  | zero => intro c s _ hs; simpa [nextClassGo] using hs
  | succ fuel ih =>
    intro c s hc hs
    unfold nextClassGo
    by_cases h : s ≤ c
    · simp [h]
    · simp [h]
      apply ih (c * 2) s (by omega)
      calc s ≤ c * 2 ^ (fuel + 1) := hs
        _ = c * 2 * 2 ^ fuel := by ring

theorem nextClassGo_min (fuel : Nat) :
    ∀ c s i j, c = 2 ^ i → s ≤ 2 ^ j → c ≤ 2 ^ j →
      nextClassGo fuel c s ≤ 2 ^ j := by
  induction fuel with
  | zero => intro c s i j _ _ hcj; simp [nextClassGo]; exact hcj
  | succ fuel ih =>
    intro c s i j hc hs hcj
    unfold nextClassGo
    by_cases h : s ≤ c
    · simpa [h] using hcj
    · simp [h]
      have hlt : (2 : Nat) ^ i < 2 ^ j := by
        rw [← hc]; exact lt_of_lt_of_le (by omega) hs
      have hij : i < j := (Nat.pow_lt_pow_iff_right (by norm_num)).mp hlt
      exact ih (c * 2) s (i + 1) j (by rw [hc, pow_succ])
        hs (by rw [hc, ← pow_succ]; exact Nat.pow_le_pow_right (by norm_num) hij)

theorem ceilClassGo_pow2 (fuel : Nat) :
    ∀ c max k, c = 2 ^ k → ∃ j, ceilClassGo fuel c max = 2 ^ j := by
  induction fuel with
  | zero => intro c max k hc; exact ⟨k, hc⟩
  | succ fuel ih =>
    intro c max k hc
    unfold ceilClassGo
    by_cases h : max < c * 2
    · simp [h]; exact ⟨k, hc⟩
    · simp [h]
      exact ih (c * 2) max (k + 1) (by rw [hc, pow_succ])

theorem ceilClassGo_le (fuel : Nat) :
    ∀ c max, c ≤ max → ceilClassGo fuel c max ≤ max := by
  induction fuel with
  | zero => intro c max hc; simpa [ceilClassGo] using hc
  | succ fuel ih =>
    intro c max hc
    unfold ceilClassGo
    by_cases h : max < c * 2
    · simpa [h] using hc
    · simp [h]
      exact ih (c * 2) max (by omega)

theorem le_ceilClassGo (fuel : Nat) :
    ∀ c max, c ≤ ceilClassGo fuel c max := by
  induction fuel with
  | zero => intro c max; simp [ceilClassGo]
  | succ fuel ih =>
    intro c max
    unfold ceilClassGo
    by_cases h : max < c * 2
    · simp [h]
    · simp [h]
      exact le_trans (by omega) (ih (c * 2) max)

theorem ceilClassGo_max (fuel : Nat) :
    ∀ c max i j, c = 2 ^ i → 2 ^ j ≤ max → c ≤ 2 ^ j →
      2 ^ j ≤ c * 2 ^ fuel → 2 ^ j ≤ ceilClassGo fuel c max := by
  induction fuel with
  | zero => intro c max i j _ _ _ hf; simp [ceilClassGo]; simpa using hf
  | succ fuel ih =>
    intro c max i j hc hm hcj hf
    unfold ceilClassGo
    by_cases h : max < c * 2
    · simp [h]
      have hlt : (2 : Nat) ^ j < 2 ^ (i + 1) := by
        rw [pow_succ]
        calc (2 : Nat) ^ j ≤ max := hm
          _ < c * 2 := h
          _ = 2 ^ i * 2 := by rw [hc]
      have hji : j ≤ i := by
        have := (Nat.pow_lt_pow_iff_right (by norm_num : (1 : Nat) < 2)).mp hlt
        omega
      calc (2 : Nat) ^ j ≤ 2 ^ i := Nat.pow_le_pow_right (by norm_num) hji
        _ = c := hc.symm
    · simp [h]
      rcases Nat.lt_or_ge c (2 ^ j) with hlt | hge
      · have hij : i < j := by
          have : (2 : Nat) ^ i < 2 ^ j := by rw [← hc]; exact hlt
          exact (Nat.pow_lt_pow_iff_right (by norm_num)).mp this
        apply ih (c * 2) max (i + 1) j (by rw [hc, pow_succ]) hm
        · rw [hc, ← pow_succ]
          exact Nat.pow_le_pow_right (by norm_num) hij
        · calc (2 : Nat) ^ j ≤ c * 2 ^ (fuel + 1) := hf
            _ = c * 2 * 2 ^ fuel := by ring
      · exact le_trans hge (le_ceilClassGo fuel (c * 2) max |>.trans' (by omega))

/-! ### Derived facts about `nextPow2`, `ceilingClass`, `isPow2` -/

theorem nextPow2_pow2 (s : Nat) : ∃ j, nextPow2 s = 2 ^ j :=
  nextClassGo_pow2 s 1 s 0 (by norm_num)

theorem le_nextPow2 (s : Nat) : s ≤ nextPow2 s :=
  nextClassGo_ge s 1 s (by norm_num) (by simpa using (Nat.lt_two_pow s).le)

theorem nextPow2_le (s j : Nat) (hj : s ≤ 2 ^ j) : nextPow2 s ≤ 2 ^ j :=
  nextClassGo_min s 1 s 0 j (by norm_num) hj (Nat.one_le_two_pow)

theorem nextPow2_of_pow2 (j : Nat) : nextPow2 (2 ^ j) = 2 ^ j :=
  le_antisymm (nextPow2_le (2 ^ j) j le_rfl) (le_nextPow2 (2 ^ j))

theorem isPow2_iff (n : Nat) : isPow2 n = true ↔ ∃ j, n = 2 ^ j := by
  unfold isPow2
  rw [beq_iff_eq]
  constructor
  · intro h
    rcases nextPow2_pow2 n with ⟨j, hj⟩
    exact ⟨j, by rw [← h, hj]⟩
  · rintro ⟨j, rfl⟩
    exact nextPow2_of_pow2 j

theorem ceilingClass_pow2 (max : Nat) : ∃ j, ceilingClass max = 2 ^ j :=
  ceilClassGo_pow2 max 1 max 0 (by norm_num)

theorem ceilingClass_le (max : Nat) (h : 0 < max) : ceilingClass max ≤ max :=
  ceilClassGo_le max 1 max h

theorem le_ceilingClass (max j : Nat) (h : 2 ^ j ≤ max) :
    2 ^ j ≤ ceilingClass max := by
  have hjm : j ≤ max := le_trans (Nat.lt_two_pow j).le h
  exact ceilClassGo_max max 1 max 0 j (by norm_num) h Nat.one_le_two_pow
    (by simpa using Nat.pow_le_pow_right (by norm_num) hjm)

/-! ### Pool `Get` facts -/

theorem isPow2_poolGet (max s : Nat) : isPow2 (poolGet max s) = true := by
  unfold poolGet
  rcases nextPow2_pow2 s with ⟨j, hj⟩
  rcases ceilingClass_pow2 max with ⟨k, hk⟩
  rw [isPow2_iff]
  rcases le_total (nextPow2 s) (ceilingClass max) with h | h
  · exact ⟨j, by rw [min_eq_left h, hj]⟩
  · exact ⟨k, by rw [min_eq_right h, hk]⟩

theorem poolGet_le_max (max s : Nat) (h : 0 < max) : poolGet max s ≤ max :=
  le_trans (min_le_right _ _) (ceilingClass_le max h)

theorem poolGet_below_ceiling (max s : Nat) (h : nextPow2 s ≤ max) :
    poolGet max s = nextPow2 s := by
  unfold poolGet
  rcases nextPow2_pow2 s with ⟨j, hj⟩
  exact min_eq_left (by rw [hj]; exact le_ceilingClass max j (by rw [← hj]; exact h))

theorem poolGet_above_ceiling (max s : Nat) (h : ¬ nextPow2 s ≤ max)
    (hmax : 0 < max) : poolGet max s = ceilingClass max := by
  unfold poolGet
  exact min_eq_right (le_trans (ceilingClass_le max hmax) (by omega))

/-! ### Byte extractor (`utils/reader.go`) -/

/-- State of the capturing sink `ByteStealer` (reader.go): `Data` is Go's
`nil` slice (`none`) until the first write. -/
structure ByteStealer where
  Data : Option Bytes
deriving DecidableEq

/-- Model of `ByteStealer.Write` (reader.go): the first write takes the
provided range itself (Go's capacity-trimming reslice `p[0:len(p):len(p)]`,
no copy of the bytes); every later write appends.  Returns the updated sink
together with the Go results `(n, err) = (len(p), nil)`. -/
def ByteStealer.write (s : ByteStealer) (p : Bytes) :
    ByteStealer × Nat × Option String :=
  match s.Data with
  | none => (⟨some p⟩, p.length, none)
  | some d => (⟨some (d ++ p)⟩, p.length, none)

/-- Model of an `io.WriterTo` source: its `WriteTo` issues the writes in
`chunks`, in order, against the sink, then returns the count `reported`
(Go `int64`) and the error `wtErr`.  An honest source reports exactly what
it wrote; a broken one may not. -/
structure WriterToSrc where
  chunks : List Bytes
  reported : Int
  wtErr : Option String
deriving DecidableEq

/-- Run a modelled source's `WriteTo` against a `ByteStealer` sink,
yielding the final sink state and the Go results `(n, err)`. -/
def WriterToSrc.writeTo (src : WriterToSrc) (sink : ByteStealer) :
    ByteStealer × Int × Option String :=
  (src.chunks.foldl (fun st p => (st.write p).1) sink, src.reported, src.wtErr)

/-- Message text of `io.ErrShortWrite`. -/
def errShortWrite : String := "short write"

/-- Model of `StealBytes` (reader.go): drive the source's `WriteTo` into a
fresh `ByteStealer`; fail with the source's error if any; fail with
`io.ErrShortWrite` when the reported count differs from
`int64(len(stealer.Data))` (Go's `len nil = 0`); otherwise return the
captured data. -/
def StealBytes (reader : WriterToSrc) : Except String Bytes :=
  let res := reader.writeTo ⟨none⟩
  match res.2.2 with
  | some e => .error e
  | none =>
      if res.2.1 ≠ ((res.1.Data.getD []).length : Int) then .error errShortWrite
      else .ok (res.1.Data.getD [])

/-- Model of the `io.WriterTo` behaviour of a `*bytes.Reader` or
`*strings.Reader` holding unread content `b`: its `WriteTo` makes one
`Write` of the remaining bytes (no write at all when already drained) and
reports their count accurately. -/
def writerToOfRest (b : Bytes) : WriterToSrc :=
  ⟨if b.isEmpty then [] else [b], (b.length : Int), none⟩

/-- Model of an abstract `io.Reader` as drained by `ioutil.ReadAll`: the
bytes it yields before EOF, or the read error it reports instead. -/
structure ReaderSrc where
  content : Bytes
  rdErr : Option String
deriving DecidableEq

/-- Closed set of message kinds dispatched by the type switch in `ToBytes`
(reader.go), with `other` for the `default` arm carrying the Go type name
printed by `%T`. -/
inductive Message where
  | bytes (r : Bytes)                 -- []byte
  | bytesList (r : List Bytes)        -- [][]byte
  | str (r : Bytes)                   -- string (its byte content)
  | buffer (r : Bytes)                -- *bytes.Buffer (its unread bytes)
  | bytesReader (r : Bytes)           -- *bytes.Reader (its unread bytes)
  | stringsReader (r : Bytes)         -- *strings.Reader (its unread bytes)
  | writerTo (r : WriterToSrc)        -- io.WriterTo
  | reader (r : ReaderSrc)            -- io.Reader
  | other (typeName : String)         -- default arm: a value of that type
deriving DecidableEq

/-- Model of `CountOf` (reader.go): total byte count of the fragments as
`int64`, accumulated left to right from `0`. -/
def CountOf (buffs : List Bytes) : Int :=
  buffs.foldl (fun n buff => n + (buff.length : Int)) 0

/-- Model of `ToBytes` (reader.go): unwrap a message to `[]byte` following
the type switch.  The `[][]byte` arm writes the fragments, in order, into a
`bytes.Buffer` presized by `CountOf` — each `Write` appends to the
accumulated contents. -/
def ToBytes : Message → Except String Bytes
  | .bytes r => .ok r
  | .bytesList r => .ok (r.foldl (fun buffer b => buffer ++ b) [])
  | .str r => .ok r
  | .buffer r => .ok r
  | .bytesReader r => StealBytes (writerToOfRest r)
  | .stringsReader r => StealBytes (writerToOfRest r)
  | .writerTo r => StealBytes r
  | .reader r =>
      match r.rdErr with
      | some e => .error e
      | none => .ok r.content
  | .other typeName => .error ("unrecognized type: " ++ typeName)

/-- Outcome of a must-succeed entry point: the value, or the fatal abort
raised by `Assert` on the error. -/
inductive MustResult where
  | value (b : Bytes)
  | fatal (e : String)
deriving DecidableEq

/-- Model of `MustToBytes` (reader.go): converts a `ToBytes` failure into a
fatal abort via `Assert(err)`. -/
def MustToBytes (message : Message) : MustResult :=
  match ToBytes message with
  | .ok r => .value r
  | .error e => .fatal e

/-- Model of an `io.Reader` value as seen by `NewByteReader`: an arbitrary
reader tagged with whether its dynamic type already implements
`io.ByteReader`, or the package's own `byteReader` wrapper (whose type
always does: it embeds the reader and adds `ReadByte`). -/
inductive GoReader where
  | base (id : Nat) (hasReadByte : Bool)
  | wrapper (inner : GoReader)
deriving DecidableEq

/-- Whether the dynamic type satisfies the `ByteReader` interface — the
`r.(ByteReader)` type assertion in `NewByteReader` (reader.go). -/
def GoReader.isByteReader : GoReader → Bool
  | .base _ hasReadByte => hasReadByte
  | .wrapper _ => true

/-- Model of `NewByteReader` (reader.go): return the reader itself when it
already implements `ByteReader`, otherwise wrap it in a `byteReader`. -/
def NewByteReader (r : GoReader) : GoReader :=
  if r.isByteReader then r else .wrapper r

/-! ### Captured-data lemmas for the stealer -/

theorem writeTo_foldl_some (chunks : List Bytes) :
    ∀ acc : Bytes,
      (chunks.foldl (fun (st : ByteStealer) p => (st.write p).1)
          ⟨some acc⟩).Data = some (acc ++ chunks.flatten) := by
  induction chunks with
  | nil => intro acc; simp
  | cons p rest ih =>
    intro acc
    simp only [List.foldl_cons, List.flatten_cons]
    have hw : (ByteStealer.write ⟨some acc⟩ p).1 = ⟨some (acc ++ p)⟩ := rfl
    rw [hw, ih (acc ++ p)]
    simp

theorem writeTo_captured (src : WriterToSrc) :
    ((src.writeTo ⟨none⟩).1.Data).getD [] = src.chunks.flatten := by
  unfold WriterToSrc.writeTo
  cases hc : src.chunks with
  | nil => simp
  | cons p rest =>
    simp only [List.foldl_cons]
    have hw : (ByteStealer.write ⟨none⟩ p).1 = ⟨some p⟩ := rfl
    rw [hw, writeTo_foldl_some rest p]
    simp

theorem stealBytes_eq (src : WriterToSrc) (hok : src.wtErr = none) :
    StealBytes src =
      if src.reported = (src.chunks.flatten.length : Int)
      then .ok src.chunks.flatten else .error errShortWrite := by
  unfold StealBytes
  have h22 : (src.writeTo ⟨none⟩).2.2 = src.wtErr := rfl
  have h21 : (src.writeTo ⟨none⟩).2.1 = src.reported := rfl
  simp only [h22, h21, hok, writeTo_captured src]
  by_cases h : src.reported = (src.chunks.flatten.length : Int)
  · simp [h]
  · simp [h]

theorem foldl_append_eq_flatten (bs : List Bytes) :
    ∀ acc : Bytes,
      bs.foldl (fun (buffer : Bytes) b => buffer ++ b) acc
        = acc ++ bs.flatten := by
  induction bs with
  | nil => intro acc; simp
  | cons b rest ih =>
    intro acc
    simp only [List.foldl_cons, List.flatten_cons, ih (acc ++ b)]
    simp

theorem countOf_eq (bs : List Bytes) : CountOf bs = (bs.flatten.length : Int) := by
  have haux : ∀ (l : List Bytes) (n : Int),
      l.foldl (fun (n : Int) buff => n + (buff.length : Int)) n
        = n + (l.flatten.length : Int) := by
    intro l
    induction l with
    | nil => intro n; simp
    | cons b rest ih =>
      intro n
      simp only [List.foldl_cons, List.flatten_cons, ih (n + (b.length : Int))]
      push_cast [List.length_append]
      ring
  simpa using haux bs 0

/-! ### Claim theorems -/

/-- C1 (amended): for every pool with positive ceiling `max`, `Get`
grants the smallest power-of-two size class ≥ the requested size, clamped
to the pool's largest class (the greatest power of two ≤ `max`, equal to
`max` whenever `max` is a power of two) when that class would exceed the
ceiling; in particular `Get 10` yields capacity 16 under `max = 32`,
16 under `max = 16`, and 8 under `max = 8`. -/
theorem pool_get_rounding (max s : Nat) (hmax : 0 < max) :
    isPow2 (poolGet max s) = true ∧
    poolGet max s ≤ max ∧
    (nextPow2 s ≤ max →
      poolGet max s = nextPow2 s ∧ s ≤ poolGet max s ∧
        ∀ k, isPow2 k = true → s ≤ k → poolGet max s ≤ k) ∧
    (¬ nextPow2 s ≤ max → poolGet max s = ceilingClass max) ∧
    poolGet 32 10 = 16 ∧ poolGet 16 10 = 16 ∧ poolGet 8 10 = 8 := by
  refine ⟨isPow2_poolGet max s, poolGet_le_max max s hmax, ?_, ?_,
    by decide, by decide, by decide⟩
  · intro h
    refine ⟨poolGet_below_ceiling max s h, ?_, ?_⟩
    · rw [poolGet_below_ceiling max s h]; exact le_nextPow2 s
    · intro k hk hs
      rcases (isPow2_iff k).mp hk with ⟨j, rfl⟩
      exact le_trans (min_le_left _ _) (nextPow2_le s j hs)
  · intro h
    exact poolGet_above_ceiling max s h hmax

/-- C1 counterexample: the claim's clause "clamped to max" fails when the
ceiling is not itself a power of two — with `max = 10` and requested size
11, the smallest power-of-two class 16 exceeds the ceiling, the claim asks
for capacity 10, but `Get` grants the largest class 8. -/
theorem pool_get_rounding_cex :
    nextPow2 11 = 16 ∧ ¬ (16 : Nat) ≤ 10 ∧
    poolGet 10 11 = 8 ∧ poolGet 10 11 ≠ 10 := by decide

/-- C1 witness: the theorem applied at `max = 32`, `s = 10` yields the
concrete capacity 16. -/
theorem pool_get_rounding_witness : poolGet 32 10 = 16 :=
  (pool_get_rounding 32 10 (by decide)).2.2.2.2.1

/-- C2 (amended): for every pool with positive ceiling `max` and every
requested size `s` no larger than the pool's largest class (in particular,
whenever `max` is a power of two and `s ≤ max`), the capacity granted by
`Get s` is a power of two, at least `s`, and at most `max`. -/
theorem pool_get_invariant (max s : Nat) (hmax : 0 < max)
    (hs : s ≤ ceilingClass max) :
    isPow2 (poolGet max s) = true ∧ s ≤ poolGet max s ∧ poolGet max s ≤ max := by
  refine ⟨isPow2_poolGet max s, ?_, poolGet_le_max max s hmax⟩
  rcases ceilingClass_pow2 max with ⟨j, hj⟩
  have hnext : nextPow2 s ≤ ceilingClass max := by
    rw [hj]; exact nextPow2_le s j (by rw [← hj]; exact hs)
  have hle : nextPow2 s ≤ max := le_trans hnext (ceilingClass_le max hmax)
  rw [poolGet_below_ceiling max s hle]
  exact le_nextPow2 s

/-- C2 counterexample: with the non-power-of-two ceiling `max = 10` and
requested size `s = 9 ≤ max`, the granted capacity is the largest class 8,
which is smaller than the requested 9 — the claim's "at least s" fails. -/
theorem pool_get_invariant_cex :
    (9 : Nat) ≤ 10 ∧ poolGet 10 9 = 8 ∧ ¬ (9 : Nat) ≤ poolGet 10 9 := by decide

/-- C2 witness: the theorem applied at `max = 16`, `s = 10` gives a
power-of-two capacity between 10 and 16. -/
theorem pool_get_invariant_witness :
    isPow2 (poolGet 16 10) = true ∧ 10 ≤ poolGet 16 10 ∧ poolGet 16 10 ≤ 16 :=
  pool_get_invariant 16 10 (by decide) (by decide)

/-- C3: for every write-to source whose `WriteTo` finishes without its own
error, `StealBytes` returns exactly the captured bytes when the reported
count equals the captured data's length, and fails with the short-write
error whenever the reported count differs. -/
theorem stealBytes_count_check (src : WriterToSrc) (hok : src.wtErr = none) :
    (src.reported = (src.chunks.flatten.length : Int) →
      StealBytes src = .ok src.chunks.flatten) ∧
    (src.reported ≠ (src.chunks.flatten.length : Int) →
      StealBytes src = .error errShortWrite) := by
  rw [stealBytes_eq src hok]
  constructor
  · intro h; rw [if_pos h]
  · intro h; rw [if_neg h]

/-- C3 witness: a source writing `{1,2}` then `{3}` and reporting 3
succeeds with `{1,2,3}`; the same writes reported as 4 fail with the
short-write error. -/
theorem stealBytes_count_check_witness :
    StealBytes ⟨[[1, 2], [3]], 3, none⟩ = .ok [1, 2, 3] ∧
    StealBytes ⟨[[1, 2], [3]], 4, none⟩ = .error errShortWrite :=
  ⟨(stealBytes_count_check ⟨[[1, 2], [3]], 3, none⟩ rfl).1 (by decide),
   (stealBytes_count_check ⟨[[1, 2], [3]], 4, none⟩ rfl).2 (by decide)⟩

/-- C4: the capturing sink's first write stores exactly the provided byte
range (taking it over as-is, the model of Go's capacity-trimming reslice),
every later write appends to the captured data, and a source writing
`{1,2}` then `{3}` leaves `{1,2,3}` captured. -/
theorem byteStealer_write_capture :
    (∀ p : Bytes, ByteStealer.write ⟨none⟩ p = (⟨some p⟩, p.length, none)) ∧
    (∀ d p : Bytes,
      ByteStealer.write ⟨some d⟩ p = (⟨some (d ++ p)⟩, p.length, none)) ∧
    (ByteStealer.write (ByteStealer.write ⟨none⟩ [1, 2]).1 [3]).1.Data
      = some [1, 2, 3] :=
  ⟨fun _ => rfl, fun _ _ => rfl, rfl⟩

/-- C5: `ToBytes` on a fragment list returns the in-order concatenation of
the fragments, whose length is exactly the `CountOf` total; concretely
`{{1,2},{3}}` yields `{1,2,3}` of length 3. -/
theorem toBytes_fragments_concat :
    (∀ bs : List Bytes,
      ToBytes (.bytesList bs) = .ok bs.flatten ∧
      (bs.flatten.length : Int) = CountOf bs) ∧
    ToBytes (.bytesList [[1, 2], [3]]) = .ok [1, 2, 3] ∧
    ([1, 2, 3] : Bytes).length = 3 := by
  refine ⟨fun bs => ⟨?_, (countOf_eq bs).symm⟩, rfl, rfl⟩
  show Except.ok (bs.foldl (fun (buffer : Bytes) b => buffer ++ b) [])
      = Except.ok bs.flatten
  rw [foldl_append_eq_flatten bs []]
  simp

/-- C6: `ToBytes` on a single contiguous byte sequence returns that
sequence itself; concretely `{1,2,3}` yields `{1,2,3}`. -/
theorem toBytes_single_identity :
    (∀ b : Bytes, ToBytes (.bytes b) = .ok b) ∧
    ToBytes (.bytes [1, 2, 3]) = .ok [1, 2, 3] :=
  ⟨fun _ => rfl, rfl⟩

/-- C7: `ToBytes` on an unrecognized message fails with an error naming
the concrete type, and `MustToBytes` turns that failure into a fatal
abort; concretely for a Go `int` such as `42`. -/
theorem toBytes_unrecognized_fails :
    (∀ t : String,
      ToBytes (.other t) = .error ("unrecognized type: " ++ t) ∧
      MustToBytes (.other t) = .fatal ("unrecognized type: " ++ t)) ∧
    ToBytes (.other "int") = .error "unrecognized type: int" ∧
    MustToBytes (.other "int") = .fatal "unrecognized type: int" :=
  ⟨fun _ => ⟨rfl, rfl⟩, rfl, rfl⟩

/-- C9: the capturing sink's write never fails — it returns the written
length and no error for every input — so a steal can only fail from the
source's own `WriteTo` error or from the final length-consistency check. -/
theorem byteStealer_write_total :
    (∀ (s : ByteStealer) (p : Bytes),
      (s.write p).2 = (p.length, (none : Option String))) ∧
    (∀ (src : WriterToSrc) (e : String), StealBytes src = .error e →
      src.wtErr = some e ∨
        (src.wtErr = none ∧ e = errShortWrite ∧
          src.reported ≠ (src.chunks.flatten.length : Int))) := by
  constructor
  · intro s p
    rcases s with ⟨_ | d⟩ <;> rfl
  · intro src e herr
    cases hw : src.wtErr with
    | some e2 =>
      left
      have hsb : StealBytes src = .error e2 := by
        unfold StealBytes
        have h22 : (src.writeTo ⟨none⟩).2.2 = src.wtErr := rfl
        simp only [h22, hw]
      rw [hsb] at herr
      injection herr with he
      rw [he]
    | none =>
      right
      rw [stealBytes_eq src hw] at herr
      by_cases h : src.reported = (src.chunks.flatten.length : Int)
      · rw [if_pos h] at herr; cases herr
      · rw [if_neg h] at herr
        cases herr
        exact ⟨rfl, rfl, h⟩

/-- C9 witness: applying the error characterization to a source that
writes `{1,2,3}` but reports 4 shows the failure is the length check. -/
theorem byteStealer_write_total_witness :
    (⟨[[1, 2, 3]], 4, none⟩ : WriterToSrc).wtErr = some errShortWrite ∨
    ((⟨[[1, 2, 3]], 4, none⟩ : WriterToSrc).wtErr = none ∧
      errShortWrite = errShortWrite ∧
      (⟨[[1, 2, 3]], 4, none⟩ : WriterToSrc).reported
        ≠ (((⟨[[1, 2, 3]], 4, none⟩ : WriterToSrc).chunks.flatten.length : Int))) :=
  byteStealer_write_total.2 ⟨[[1, 2, 3]], 4, none⟩ errShortWrite rfl

/-- C10: `NewByteReader` is identity-preserving — a reader whose dynamic
type already implements the `ByteReader` contract is returned unchanged,
hence applying `NewByteReader` twice equals applying it once. -/
theorem newByteReader_identity :
    (∀ r : GoReader, r.isByteReader = true → NewByteReader r = r) ∧
    (∀ r : GoReader, NewByteReader (NewByteReader r) = NewByteReader r) := by
  constructor
  · intro r h
    simp [NewByteReader, h]
  · intro r
    by_cases h : r.isByteReader = true
    · simp [NewByteReader, h]
    · have h1 : NewByteReader r = .wrapper r := by simp [NewByteReader, h]
      rw [h1]
      have h2 : (GoReader.wrapper r).isByteReader = true := rfl
      simp [NewByteReader, h2]

/-- C10 witness: a reader already implementing `ByteReader` comes back
unchanged. -/
theorem newByteReader_identity_witness :
    NewByteReader (GoReader.base 0 true) = GoReader.base 0 true :=
  newByteReader_identity.1 (GoReader.base 0 true) rfl

end GoNetty
